import Mathlib

/-!
Verification development for `lib/css-responder.js` of the connect-fonts
middleware.  The JavaScript source is embedded shallowly: module-level
mutable state (`cssCache`, `cssTmpPath`) becomes an explicit `CacheState`
record threaded through `get_css`; the external collaborators
(`node-font-face-generator`, `tmp`, `fs.writeFile`) become oracle
parameters; the URL regular expression
`/(?:\/([^\/]+))?\/([^\/]+)\/fonts\.css$/` is modelled by an explicit
scanner with JavaScript `exec` semantics (first starting position that
matches, greedy optional locale group).
-/

/-- Errors flowing through the callbacks.  `invalidFont` models
`css_generator.InvalidFontError` (recognised by `instanceof` in the
responder); the other constructors model any other generator or
filesystem error object. -/
inductive JsError where
  | invalidFont : JsError
  | generationError : String → JsError
  | ioError : String → JsError
deriving DecidableEq

/-- Result object `{ css: cssStr }` produced by `generate_css`. -/
structure CssResult where
  css : String
deriving DecidableEq

/-- Cache entry: the `cssObj` after `get_css` attached `cssPath`
(`cssObj.cssPath = cssPath`). -/
structure CssObj where
  css : String
  cssPath : String
deriving DecidableEq

/-- The module-level mutable state of `css-responder.js`:
`var cssCache = {}, cssTmpPath;`. -/
structure CacheState where
  cssCache : String → Option CssObj
  cssTmpPath : Option String

/-- Model of JavaScript `Array.prototype.join(',')` (which is what `''+fonts`
invokes through `Array.prototype.toString`). -/
def joinComma : List String → String
  | [] => ""
  | [f] => f
  | f :: rest => f ++ "," ++ joinComma rest

/-- `getCacheKey(ua, locale, fonts)`: `ua + '-' + locale + '-' + fonts`.
The fonts argument is an array, which string concatenation converts via
`join(',')`. -/
def getCacheKey (ua locale : String) (fonts : List String) : String :=
  ua ++ "-" ++ locale ++ "-" ++ joinComma fonts

/-- `prepareTmpPath`: memoises the temp directory in `cssTmpPath`.  The
JS guard `if (cssTmpPath)` is string truthiness, so a set-but-empty path
is treated as unset.  `tmp.dir` is modelled by the oracle value `tmpDir`
(its failure path is dropped by the source itself: the callback in
`get_css` ignores the error argument of `prepareTmpPath`). -/
def prepareTmpPath (tmpDir : String) (st : CacheState) : String × CacheState :=
  match st.cssTmpPath with
  | some p =>
      if p ≠ "" then (p, st)
      else (tmpDir, { st with cssTmpPath := some tmpDir })
  | none => (tmpDir, { st with cssTmpPath := some tmpDir })

/-- JavaScript `\w` (no unicode flag): `[A-Za-z0-9_]`. -/
def isWordChar (c : Char) : Bool :=
  (97 ≤ c.toNat && c.toNat ≤ 122) ||           -- a-z
  (65 ≤ c.toNat && c.toNat ≤ 90) ||            -- A-Z
  (48 ≤ c.toNat && c.toNat ≤ 57) ||            -- 0-9
  c == '_'

/-- `cacheKey.replace(/\W/g, '-')`: every non-word character becomes the
placeholder character. -/
def sanitizeKey (k : String) : String :=
  String.mk (k.data.map (fun c => if isWordChar c then c else '-'))

/-- Model of `path.join(dir, name)` for a directory path without a
trailing slash (the form `tmp.dir` produces). -/
def pathJoin (dir name : String) : String := dir ++ "/" ++ name

/-- `exports.generate_css`: wraps the external generator
(`css_generator.get_font_css`, the oracle `get_font_css` here) and boxes
a successful CSS string into `{ css: cssStr }`. -/
def generate_css (get_font_css : String → String → List String → Except JsError String)
    (ua locale : String) (fonts : List String) : Except JsError CssResult :=
  match get_font_css ua locale fonts with
  | Except.error e => Except.error e
  | Except.ok cssStr => Except.ok { css := cssStr }

/-- `exports.get_css`.  Oracles: `get_font_css` (the generator),
`tmpDir` (the directory `tmp.dir` would create), `writeFile`
(`fs.writeFile`, returning `some e` on failure).  The result is the
callback value, the updated module state, and a flag recording whether
the generation adapter was invoked during this call. -/
def get_css (get_font_css : String → String → List String → Except JsError String)
    (tmpDir : String) (writeFile : String → String → Option JsError)
    (st : CacheState) (ua locale : String) (fonts : List String) :
    Except JsError CssObj × CacheState × Bool :=
  let cacheKey := getCacheKey ua locale fonts
  match st.cssCache cacheKey with
  | some cacheHit => (Except.ok cacheHit, st, false)
  | none =>
    -- no cache hit, go generate the CSS.
    match generate_css get_font_css ua locale fonts with
    | Except.error e => (Except.error e, st, true)
    | Except.ok cssResult =>
      let tp := prepareTmpPath tmpDir st
      let cssPath := pathJoin tp.1 (sanitizeKey cacheKey ++ ".css")
      match writeFile cssPath cssResult.css with
      | some e => (Except.error e, tp.2, true)
      | none =>
        -- save to cache.
        let cssObj : CssObj := { css := cssResult.css, cssPath := cssPath }
        (Except.ok cssObj,
         { tp.2 with
             cssCache := fun k => if k = cacheKey then some cssObj else tp.2.cssCache k },
         true)

/-! ## The URL pattern `/(?:\/([^\/]+))?\/([^\/]+)\/fonts\.css$/` -/

/-- The literal tail `\/fonts\.css` of the pattern. -/
def cssSuffix : List Char := ['/', 'f', 'o', 'n', 't', 's', '.', 'c', 's', 's']

/-- The character class `[^\/]`. -/
def notSlash (c : Char) : Bool := c != '/'

/-- Match `\/([^\/]+)\/fonts\.css$` against the whole of `t`, returning
the capture.  Because `[^\/]` cannot cross a slash, the greedy capture
is the run of non-slash characters and the remainder must be exactly
`/fonts.css` (the pattern is anchored by `$`). -/
def matchTail (t : List Char) : Option (List Char) :=
  match t with
  | [] => none
  | c :: rest =>
      if c = '/' then
        let fonts := rest.takeWhile notSlash
        if fonts.isEmpty then none
        else if rest.dropWhile notSlash = cssSuffix then some fonts
        else none
      else none

/-- Match the full pattern `(?:\/([^\/]+))?\/([^\/]+)\/fonts\.css$`
starting exactly at the head of `t`: the optional locale group is tried
greedily first (`?` is greedy); if the rest of the pattern fails after
it, the group is dropped and the tail pattern is retried at the same
position. -/
def matchAt (t : List Char) : Option (Option (List Char) × List Char) :=
  match t with
  | [] => none
  | c :: rest =>
      if c = '/' then
        let loc := rest.takeWhile notSlash
        match (if loc.isEmpty then none else matchTail (rest.dropWhile notSlash)) with
        | some fonts => some (some loc, fonts)
        | none => (matchTail (c :: rest)).map (fun fonts => (none, fonts))
      else (matchTail (c :: rest)).map (fun fonts => (none, fonts))

/-- JavaScript `RegExp.prototype.exec`: try each starting position from
the left and return the first successful match. -/
def execScan : List Char → Option (Option (List Char) × List Char)
  | [] => matchAt []
  | c :: rest =>
      match matchAt (c :: rest) with
      | some r => some r
      | none => execScan rest

/-! ## The responder `font_css_responder` -/

/-- Model of JavaScript `String.prototype.split(',')`: always a
nonempty list; empty fragments are kept. -/
def splitComma : List Char → List (List Char)
  | [] => [[]]
  | c :: rest =>
      if c = ',' then [] :: splitComma rest
      else
        match splitComma rest with
        | s :: ss => (c :: s) :: ss
        | [] => [[c]]

/-- `locale = match[1]; if (!locale) locale = "default";`.  The capture
is `none` when the optional group did not participate; the falsiness
test also covers an empty capture. -/
def resolveLocale (m1 : Option (List Char)) : String :=
  match m1 with
  | none => "default"
  | some l => if String.mk l = "" then "default" else String.mk l

/-- JavaScript `a || b` on optional strings: `a` unless it is absent or
empty. -/
def jsOr (a b : Option String) : Option String :=
  match a with
  | some s => if s = "" then b else some s
  | none => b

/-- The setup options used by the responder: `config.ua` (optional
user-agent override) and the `compress` flag. -/
structure ConfigState where
  ua : Option String
  compress : Bool
deriving DecidableEq

/-- An incoming request: method, URL, and the `user-agent` header
(`none` when the header is absent). -/
structure Req where
  method : String
  url : String
  userAgentHeader : Option String
deriving DecidableEq

/-- Observable outcome of one `font_css_responder` call.
`passThrough` is the final `next()` on line 196 (not a font request, or
no user agent); `nextAfterError` is the `next()` inside the `get_css`
callback on an `InvalidFontError`; `raise` is `throw err`; `stream`
pipes the cached file (through `oppressor` when compressed). -/
inductive RespAction where
  | passThrough : RespAction
  | nextAfterError : RespAction
  | raise : JsError → RespAction
  | stream : String → Bool → RespAction
deriving DecidableEq

/-- Does the action invoke the next handler in the chain? -/
def callsNext : RespAction → Bool
  | RespAction.passThrough => true
  | RespAction.nextAfterError => true
  | _ => false

/-- The `get_css` callback body (lines 170-191): dispatch on the error,
recognising only `InvalidFontError`; on success stream the cached file. -/
def dispatchGetCss (compress : Bool) (r : Except JsError CssObj) : RespAction :=
  match r with
  | Except.error JsError.invalidFont => RespAction.nextAfterError
  | Except.error e => RespAction.raise e
  | Except.ok cssObj => RespAction.stream cssObj.cssPath compress

/-- `exports.font_css_responder`.  The call to `exports.get_css` is the
oracle `getCss`; everything up to that call is translated directly:
method guard, regex `exec`, `config.ua || req.headers['user-agent']`,
locale defaulting, `fonts.split(',')`, and the truthiness guard
`if (ua && locale && fonts)` (a `split` result is an array, which is
always truthy, so only `ua` and `locale` are tested). -/
def font_css_responder (cfg : ConfigState)
    (getCss : String → String → List String → Except JsError CssObj)
    (req : Req) : RespAction :=
  if req.method = "GET" then
    match execScan req.url.toList with
    | some (m1, m2) =>
        match jsOr cfg.ua req.userAgentHeader with
        | some uaStr =>
            let locale := resolveLocale m1
            let fonts := (splitComma m2).map String.mk
            if uaStr ≠ "" ∧ locale ≠ "" then
              dispatchGetCss cfg.compress (getCss uaStr locale fonts)
            else RespAction.passThrough
        | none => RespAction.passThrough
    | none => RespAction.passThrough
  else RespAction.passThrough

/-! ## Cache-control headers -/

/-- The response headers touched by `setCacheControlHeaders`:
`none` models an unset header. -/
structure Headers where
  date : Option String
  cacheControl : Option String
deriving DecidableEq

/-- The fractional digits of `n / 1000` for `n % 1000 ≠ 0`: up to three
decimal digits with trailing zeros dropped, as JavaScript prints the
exact quotient. -/
def fracDigits (r : Nat) : String :=
  let d1 := r / 100
  let d2 := r / 10 % 10
  let d3 := r % 10
  if d3 ≠ 0 then toString d1 ++ toString d2 ++ toString d3
  else if d2 ≠ 0 then toString d1 ++ toString d2
  else toString d1

/-- JavaScript renders `maxAge / 1000` (float division of an integer
number of milliseconds) as the exact decimal value: an integer when
`1000 ∣ maxAge`, otherwise with a fractional part. -/
def jsDivBy1000 (n : Nat) : String :=
  if n % 1000 = 0 then toString (n / 1000)
  else toString (n / 1000) ++ "." ++ fracDigits (n % 1000)

/-- `setCacheControlHeaders(res)` (lines 199-206); `maxAge` is the
module variable, `now` stands for `new Date().toUTCString()`. -/
def setCacheControlHeaders (maxAge : Nat) (now : String) (res : Headers) : Headers :=
  if maxAge ≠ 0 then
    let res1 :=
      match res.date with
      | none => { res with date := some now }
      | some _ => res
    match res1.cacheControl with
    | none => { res1 with cacheControl := some ("public, max-age=" ++ jsDivBy1000 maxAge) }
    | some _ => res1
  else res

/-! ## Lemmas about `get_css` and the cache -/

lemma prepareTmpPath_cssCache (tmpDir : String) (st : CacheState) :
    (prepareTmpPath tmpDir st).2.cssCache = st.cssCache := by
  unfold prepareTmpPath
  cases st.cssTmpPath with
  | none => rfl
  | some p => by_cases hp : p ≠ "" <;> simp [hp]

lemma get_css_hit (get_font_css : String → String → List String → Except JsError String)
    (tmpDir : String) (writeFile : String → String → Option JsError)
    (st : CacheState) (ua locale : String) (fonts : List String) (cssObj : CssObj)
    (h : st.cssCache (getCacheKey ua locale fonts) = some cssObj) :
    get_css get_font_css tmpDir writeFile st ua locale fonts = (Except.ok cssObj, st, false) := by
  simp [get_css, h]

lemma get_css_ok_cached (get_font_css : String → String → List String → Except JsError String)
    (tmpDir : String) (writeFile : String → String → Option JsError)
    (st : CacheState) (ua locale : String) (fonts : List String) (cssObj : CssObj)
    (h : (get_css get_font_css tmpDir writeFile st ua locale fonts).1 = Except.ok cssObj) :
    (get_css get_font_css tmpDir writeFile st ua locale fonts).2.1.cssCache
      (getCacheKey ua locale fonts) = some cssObj := by
  cases hs : st.cssCache (getCacheKey ua locale fonts) with
  | some hit =>
      simp [get_css, hs] at h ⊢
      exact h
  | none =>
      cases hg : generate_css get_font_css ua locale fonts with
      | error e => simp [get_css, hs, hg] at h
      | ok cssResult =>
          cases hw : writeFile
              (pathJoin (prepareTmpPath tmpDir st).1
                (sanitizeKey (getCacheKey ua locale fonts) ++ ".css")) cssResult.css with
          | some e => simp [get_css, hs, hg, hw] at h
          | none =>
              simp [get_css, hs, hg, hw] at h ⊢
              exact h

/-- C1: calling `get_css` twice in sequence with identical `(ua, locale,
fonts)` arguments yields the same cache entry both times (same
`cssPath`): if the first call succeeds with `cssObj`, the second call
run on the resulting state returns the very same `cssObj`, leaves the
state unchanged, and does not invoke the CSS generation adapter (the
invocation flag is `false`). -/
theorem get_css_second_call_is_cache_hit
    (get_font_css : String → String → List String → Except JsError String)
    (tmpDir : String) (writeFile : String → String → Option JsError)
    (st : CacheState) (ua locale : String) (fonts : List String) (cssObj : CssObj)
    (h : (get_css get_font_css tmpDir writeFile st ua locale fonts).1 = Except.ok cssObj) :
    get_css get_font_css tmpDir writeFile
        (get_css get_font_css tmpDir writeFile st ua locale fonts).2.1 ua locale fonts
      = (Except.ok cssObj,
         (get_css get_font_css tmpDir writeFile st ua locale fonts).2.1, false) :=
  get_css_hit get_font_css tmpDir writeFile _ ua locale fonts cssObj
    (get_css_ok_cached get_font_css tmpDir writeFile st ua locale fonts cssObj h)

/-- Witness for C1 at a concrete input: a miss followed by a hit. -/
theorem get_css_second_call_is_cache_hit_witness :
    get_css (fun _ _ _ => Except.ok "body") "/t" (fun _ _ => none)
        (get_css (fun _ _ _ => Except.ok "body") "/t" (fun _ _ => none)
          ⟨fun _ => none, none⟩ "ua" "en" ["A"]).2.1 "ua" "en" ["A"]
      = (Except.ok ⟨"body", "/t/ua-en-A.css"⟩,
         (get_css (fun _ _ _ => Except.ok "body") "/t" (fun _ _ => none)
           ⟨fun _ => none, none⟩ "ua" "en" ["A"]).2.1, false) :=
  get_css_second_call_is_cache_hit _ _ _ _ _ _ _ _ (by rfl)

/-- C7: `get_css` is atomic on failure.  On a cache miss, if the
generation adapter fails the error is propagated unchanged and the
state is untouched; if generation succeeds but the file write fails,
that error is propagated unchanged and no entry is inserted into the
cache (`cssCache` is unchanged; only the process-wide temp path may
have been memoised). -/
theorem get_css_error_not_cached
    (get_font_css : String → String → List String → Except JsError String)
    (tmpDir : String) (writeFile : String → String → Option JsError)
    (st : CacheState) (ua locale : String) (fonts : List String)
    (hmiss : st.cssCache (getCacheKey ua locale fonts) = none) :
    (∀ e, get_font_css ua locale fonts = Except.error e →
        get_css get_font_css tmpDir writeFile st ua locale fonts = (Except.error e, st, true)) ∧
    (∀ cssStr e, get_font_css ua locale fonts = Except.ok cssStr →
        writeFile (pathJoin (prepareTmpPath tmpDir st).1
            (sanitizeKey (getCacheKey ua locale fonts) ++ ".css")) cssStr = some e →
        (get_css get_font_css tmpDir writeFile st ua locale fonts).1 = Except.error e ∧
        (get_css get_font_css tmpDir writeFile st ua locale fonts).2.1.cssCache
          = st.cssCache) := by
  constructor
  · intro e he
    simp [get_css, generate_css, hmiss, he]
  · intro cssStr e hg hw
    constructor
    · simp [get_css, generate_css, hmiss, hg, hw]
    · simp [get_css, generate_css, hmiss, hg, hw, prepareTmpPath_cssCache]

/-- Witness for C7 at a concrete input: a failing generator call leaves
the empty cache state untouched and surfaces the error unchanged. -/
theorem get_css_error_not_cached_witness :
    get_css (fun _ _ _ => Except.error (JsError.generationError "boom")) "/t"
        (fun _ _ => none) ⟨fun _ => none, none⟩ "ua" "en" ["A"]
      = (Except.error (JsError.generationError "boom"), ⟨fun _ => none, none⟩, true) :=
  (get_css_error_not_cached _ _ _ _ _ _ _ (by rfl)).1 _ (by rfl)

/-- C6 (amended): on a cache miss that generates and writes
successfully, the persisted file lives in the single process-wide temp
directory and its name is the cache key with every non-word character
replaced by the placeholder, suffixed `.css`.  The derivation is a
function of the key alone, so one key always maps to one file; the
naming however does NOT distinguish every pair of distinct keys (see
the counterexample). -/
theorem get_css_file_naming
    (get_font_css : String → String → List String → Except JsError String)
    (tmpDir : String) (writeFile : String → String → Option JsError)
    (st : CacheState) (ua locale : String) (fonts : List String) (cssStr : String)
    (hmiss : st.cssCache (getCacheKey ua locale fonts) = none)
    (hgen : get_font_css ua locale fonts = Except.ok cssStr)
    (hwrite : writeFile (pathJoin (prepareTmpPath tmpDir st).1
        (sanitizeKey (getCacheKey ua locale fonts) ++ ".css")) cssStr = none) :
    (get_css get_font_css tmpDir writeFile st ua locale fonts).1
      = Except.ok ⟨cssStr, pathJoin (prepareTmpPath tmpDir st).1
          (sanitizeKey (getCacheKey ua locale fonts) ++ ".css")⟩ := by
  simp [get_css, generate_css, hmiss, hgen, hwrite]

/-- Witness for the amended C6 at a concrete input. -/
theorem get_css_file_naming_witness :
    (get_css (fun _ _ _ => Except.ok "body") "/t" (fun _ _ => none)
        ⟨fun _ => none, none⟩ "x.y" "en" ["A"]).1
      = Except.ok ⟨"body", pathJoin (prepareTmpPath "/t" ⟨fun _ => none, none⟩).1
          (sanitizeKey (getCacheKey "x.y" "en" ["A"]) ++ ".css")⟩ :=
  get_css_file_naming _ _ _ _ _ _ _ _ (by rfl) (by rfl) (by rfl)

/-- C6 counterexample: the sanitised file naming does not distinguish
all distinct cache keys — the keys for `ua = "x.y"` and `ua = "x-y"`
differ, yet they derive the same `.css` file name. -/
theorem sanitizeKey_not_injective :
    getCacheKey "x.y" "en" ["A"] ≠ getCacheKey "x-y" "en" ["A"] ∧
    sanitizeKey (getCacheKey "x.y" "en" ["A"]) ++ ".css"
      = sanitizeKey (getCacheKey "x-y" "en" ["A"]) ++ ".css" := by
  decide

/-- C3 counterexample: the cache-key derivation is not injective —
the tuples `("a-b", "c", ["f"])` and `("a", "b-c", ["f"])` differ in
every string component yet produce the same cache key. -/
theorem getCacheKey_not_injective :
    getCacheKey "a-b" "c" ["f"] = getCacheKey "a" "b-c" ["f"] ∧ ("a-b" : String) ≠ "a" := by
  decide

/-! ## Cache-key injectivity under delimiter-freeness -/

lemma data_append (s t : String) : (s ++ t).data = s.data ++ t.data := rfl

lemma string_data_inj {s t : String} (h : s.data = t.data) : s = t := by
  cases s
  cases t
  exact congrArg String.mk h

lemma splitAtDelim {d : Char} : ∀ {xs1 : List Char} {ys1 : List Char}
    {xs2 : List Char} {ys2 : List Char},
    d ∉ xs1 → d ∉ xs2 → xs1 ++ d :: ys1 = xs2 ++ d :: ys2 → xs1 = xs2 ∧ ys1 = ys2 := by
  intro xs1
  induction xs1 with
  | nil =>
      intro ys1 xs2 ys2 _ h2 h
      cases xs2 with
      | nil => simpa using h
      | cons b xs2 =>
          simp only [List.nil_append, List.cons_append, List.cons.injEq] at h
          exact absurd (h.1 ▸ List.mem_cons_self b xs2) (h.1 ▸ h2)
  | cons a xs1 ih =>
      intro ys1 xs2 ys2 h1 h2 h
      cases xs2 with
      | nil =>
          simp only [List.cons_append, List.nil_append, List.cons.injEq] at h
          exact absurd (h.1 ▸ List.mem_cons_self a xs1) (h.1 ▸ h1)
      | cons b xs2 =>
          simp only [List.cons_append, List.cons.injEq] at h
          obtain ⟨rfl, h⟩ := h
          have := ih (fun hm => h1 (List.mem_cons_of_mem _ hm))
            (fun hm => h2 (List.mem_cons_of_mem _ hm)) h
          exact ⟨by rw [this.1], this.2⟩

lemma joinComma_inj : ∀ (fs1 fs2 : List String), fs1 ≠ [] → fs2 ≠ [] →
    (∀ f ∈ fs1, ',' ∉ f.data) → (∀ f ∈ fs2, ',' ∉ f.data) →
    joinComma fs1 = joinComma fs2 → fs1 = fs2 := by
  intro fs1
  induction fs1 with
  | nil => intro fs2 h1; exact absurd rfl h1
  | cons f1 r1 ih =>
      intro fs2 _ hn2 hc1 hc2 h
      cases fs2 with
      | nil => exact absurd rfl hn2
      | cons f2 r2 =>
          cases r1 with
          | nil =>
              cases r2 with
              | nil =>
                  simp only [joinComma] at h
                  rw [h]
              | cons g2 r2 =>
                  exfalso
                  simp only [joinComma] at h
                  have hd := congrArg String.data h
                  simp only [data_append] at hd
                  have : ',' ∈ f1.data := by
                    rw [hd]
                    simp [List.mem_append]
                  exact hc1 f1 (List.mem_cons_self _ _) this
          | cons g1 r1 =>
              cases r2 with
              | nil =>
                  exfalso
                  simp only [joinComma] at h
                  have hd := congrArg String.data h
                  simp only [data_append] at hd
                  have : ',' ∈ f2.data := by
                    rw [← hd]
                    simp [List.mem_append]
                  exact hc2 f2 (List.mem_cons_self _ _) this
              | cons g2 r2 =>
                  simp only [joinComma] at h
                  have hd := congrArg String.data h
                  simp only [data_append, List.append_assoc] at hd
                  have hsplit := splitAtDelim (d := ',')
                    (hc1 f1 (List.mem_cons_self _ _)) (hc2 f2 (List.mem_cons_self _ _))
                    (by simpa using hd)
                  have hf : f1 = f2 := string_data_inj hsplit.1
                  have hr : g1 :: r1 = g2 :: r2 :=
                    ih (g2 :: r2) (by simp) (by simp)
                      (fun f hf => hc1 f (List.mem_cons_of_mem _ hf))
                      (fun f hf => hc2 f (List.mem_cons_of_mem _ hf))
                      (string_data_inj hsplit.2)
                  rw [hf, hr]

/-- C3 (amended): the cache key is a deterministic delimited
concatenation, but it is injective only on tuples whose user-agent and
locale contain no delimiter character `-` and whose nonempty font list
has comma-free names; in general distinct tuples can collide (see the
counterexample). -/
theorem getCacheKey_injective_on_delimiter_free
    (ua1 l1 : String) (fs1 : List String) (ua2 l2 : String) (fs2 : List String)
    (hu1 : '-' ∉ ua1.data) (hu2 : '-' ∉ ua2.data)
    (hl1 : '-' ∉ l1.data) (hl2 : '-' ∉ l2.data)
    (hf1 : ∀ f ∈ fs1, ',' ∉ f.data) (hf2 : ∀ f ∈ fs2, ',' ∉ f.data)
    (hn1 : fs1 ≠ []) (hn2 : fs2 ≠ [])
    (h : getCacheKey ua1 l1 fs1 = getCacheKey ua2 l2 fs2) :
    ua1 = ua2 ∧ l1 = l2 ∧ fs1 = fs2 := by
  have hd := congrArg String.data h
  simp only [getCacheKey, data_append, List.append_assoc] at hd
  have hd2 : ua1.data ++ '-' :: (l1.data ++ '-' :: (joinComma fs1).data)
      = ua2.data ++ '-' :: (l2.data ++ '-' :: (joinComma fs2).data) := by
    simpa using hd
  have h1 := splitAtDelim (d := '-') hu1 hu2 hd2
  have h2 := splitAtDelim (d := '-') hl1 hl2 h1.2
  exact ⟨string_data_inj h1.1, string_data_inj h2.1,
    joinComma_inj fs1 fs2 hn1 hn2 hf1 hf2 (string_data_inj h2.2)⟩

/-- Witness for the amended C3 at concrete delimiter-free inputs. -/
theorem getCacheKey_injective_on_delimiter_free_witness :
    ("u" : String) = "u" ∧ ("en" : String) = "en" ∧ (["A"] : List String) = ["A"] :=
  getCacheKey_injective_on_delimiter_free "u" "en" ["A"] "u" "en" ["A"]
    (by decide) (by decide) (by decide) (by decide) (by decide) (by decide)
    (by decide) (by decide) rfl

/-! ## Cache-control headers -/

/-- C5 counterexample: with `maxAgeMillis = 1500` the emitted value is
`public, max-age=1.5` — the exact quotient `1500 / 1000 = 1.5` as
JavaScript prints it — which is not `public, max-age=` followed by an
integer number of seconds. -/
theorem setCacheControlHeaders_fractional :
    (setCacheControlHeaders 1500 "D" ⟨none, none⟩).cacheControl
      = some "public, max-age=1.5" ∧
    (setCacheControlHeaders 1500 "D" ⟨none, none⟩).cacheControl
      ≠ some ("public, max-age=" ++ toString (1500 / 1000 : Nat)) := by
  decide

/-- C5 (amended): headers are touched only when `maxAge` is nonzero and
only when not already present: `Date` becomes the current time if
absent, `Cache-Control` becomes `public, max-age=` followed by the
exact decimal value of `maxAge / 1000` if absent (an integer number of
seconds exactly when `maxAge` is a multiple of 1000); headers already
present are never overwritten. -/
theorem setCacheControlHeaders_spec (maxAge : Nat) (now : String) (res : Headers) :
    (maxAge = 0 → setCacheControlHeaders maxAge now res = res) ∧
    (0 < maxAge →
      (res.date = none → (setCacheControlHeaders maxAge now res).date = some now) ∧
      (∀ d, res.date = some d → (setCacheControlHeaders maxAge now res).date = some d) ∧
      (res.cacheControl = none → (setCacheControlHeaders maxAge now res).cacheControl
          = some ("public, max-age=" ++ jsDivBy1000 maxAge)) ∧
      (∀ v, res.cacheControl = some v →
          (setCacheControlHeaders maxAge now res).cacheControl = some v) ∧
      (maxAge % 1000 = 0 → jsDivBy1000 maxAge = toString (maxAge / 1000))) := by
  constructor
  · intro h
    simp [setCacheControlHeaders, h]
  · intro hpos
    have hne : maxAge ≠ 0 := Nat.pos_iff_ne_zero.mp hpos
    obtain ⟨hdate, hcc⟩ := res
    refine ⟨?_, ?_, ?_, ?_, ?_⟩
    · intro h
      cases h
      cases hcc <;> simp [setCacheControlHeaders, hne]
    · intro d h
      cases h
      cases hcc <;> simp [setCacheControlHeaders, hne]
    · intro h
      cases h
      cases hdate <;> simp [setCacheControlHeaders, hne]
    · intro v h
      cases h
      cases hdate <;> simp [setCacheControlHeaders, hne]
    · intro hmod
      simp [jsDivBy1000, hmod]

/-- Witness for the amended C5: `maxAgeMillis = 3600000` with no
pre-set header yields `Cache-Control: public, max-age=3600`. -/
theorem setCacheControlHeaders_spec_witness :
    (setCacheControlHeaders 3600000 "now" ⟨none, none⟩).cacheControl
      = some "public, max-age=3600" := by
  have h := (setCacheControlHeaders_spec 3600000 "now" ⟨none, none⟩).2 (by decide)
  rw [h.2.2.1 rfl]
  decide

/-! ## Lemmas about the URL matcher -/

lemma takeWhile_notSlash_append (xs ys : List Char) (h : ∀ c ∈ xs, notSlash c = true) :
    (xs ++ '/' :: ys).takeWhile notSlash = xs := by
  induction xs with
  | nil => simp [notSlash]
  | cons a xs ih =>
      rw [List.cons_append, List.takeWhile_cons_of_pos (h a (List.mem_cons_self _ _))]
      rw [ih (fun c hc => h c (List.mem_cons_of_mem _ hc))]

lemma dropWhile_notSlash_append (xs ys : List Char) (h : ∀ c ∈ xs, notSlash c = true) :
    (xs ++ '/' :: ys).dropWhile notSlash = '/' :: ys := by
  induction xs with
  | nil => simp [notSlash]
  | cons a xs ih =>
      rw [List.cons_append, List.dropWhile_cons_of_pos (h a (List.mem_cons_self _ _))]
      exact ih (fun c hc => h c (List.mem_cons_of_mem _ hc))

lemma matchTail_shape (fonts : List Char) (hne : fonts ≠ [])
    (h : ∀ c ∈ fonts, notSlash c = true) :
    matchTail ('/' :: (fonts ++ cssSuffix)) = some fonts := by
  have hsfx : fonts ++ cssSuffix = fonts ++ '/' :: ['f', 'o', 'n', 't', 's', '.', 'c', 's', 's'] := rfl
  simp only [matchTail, if_pos rfl]
  rw [hsfx, takeWhile_notSlash_append _ _ h, dropWhile_notSlash_append _ _ h]
  simp [hne, cssSuffix]

lemma matchTail_sound {t fonts : List Char} (h : matchTail t = some fonts) :
    t = '/' :: (fonts ++ cssSuffix) ∧ fonts ≠ [] ∧ ∀ c ∈ fonts, notSlash c = true := by
  cases t with
  | nil => exact absurd h (by simp [matchTail])
  | cons c rest =>
    by_cases hc : c = '/'
    case neg => simp [matchTail, hc] at h
    case pos =>
      subst hc
      simp only [matchTail, if_pos rfl] at h
      by_cases hemp : (rest.takeWhile notSlash).isEmpty
      · simp [hemp] at h
      · by_cases hdrop : rest.dropWhile notSlash = cssSuffix
        · simp only [hemp, hdrop, if_false, if_true, Bool.false_eq_true] at h
          obtain rfl := Option.some.injEq _ _ ▸ h
          refine ⟨?_, ?_, ?_⟩
          · rw [← hdrop, List.takeWhile_append_dropWhile]
          · simpa [List.isEmpty_iff] using hemp
          · exact fun c hc => List.mem_takeWhile_imp hc
        · simp [hemp, hdrop] at h

lemma count_slash_eq_zero {xs : List Char} (h : ∀ c ∈ xs, notSlash c = true) :
    xs.count '/' = 0 := by
  rw [List.count_eq_zero]
  intro hmem
  have := h _ hmem
  simp [notSlash] at this

lemma count_slash_matchTail {t fonts : List Char} (h : matchTail t = some fonts) :
    t.count '/' = 2 := by
  obtain ⟨rfl, _, hall⟩ := matchTail_sound h
  have h1 : cssSuffix.count '/' = 1 := by decide
  simp [List.count_cons, List.count_append, count_slash_eq_zero hall, h1]

lemma matchTail_not_slash {c : Char} {t : List Char} (hc : c ≠ '/') :
    matchTail (c :: t) = none := by
  simp [matchTail, hc]

lemma matchAt_not_slash {c : Char} {t : List Char} (hc : c ≠ '/') :
    matchAt (c :: t) = none := by
  simp [matchAt, hc, matchTail_not_slash hc]

lemma count_slash_matchAt {t : List Char} {r : Option (List Char) × List Char}
    (h : matchAt t = some r) : t.count '/' = 2 ∨ t.count '/' = 3 := by
  cases t with
  | nil => exact absurd h (by simp [matchAt])
  | cons c rest =>
    by_cases hc : c = '/'
    case neg => exact absurd h (by simp [matchAt_not_slash hc])
    case pos =>
      subst hc
      simp only [matchAt, if_pos rfl] at h
      by_cases hemp : (rest.takeWhile notSlash).isEmpty
      · simp only [hemp, if_true] at h
        rcases Option.map_eq_some'.mp (by simpa using h) with ⟨fonts, hmt, _⟩
        exact Or.inl (count_slash_matchTail hmt)
      · cases hmt : matchTail (rest.dropWhile notSlash) with
        | none =>
            simp only [hemp, hmt, if_false, Bool.false_eq_true] at h
            rcases Option.map_eq_some'.mp (by simpa using h) with ⟨fonts, hmt2, _⟩
            exact Or.inl (count_slash_matchTail hmt2)
        | some fonts =>
            right
            have hdrop := count_slash_matchTail hmt
            have htw : (rest.takeWhile notSlash).count '/' = 0 :=
              count_slash_eq_zero (fun c hc => List.mem_takeWhile_imp hc)
            have hrest : rest.count '/' = 2 := by
              conv_lhs => rw [← List.takeWhile_append_dropWhile (p := notSlash) (l := rest)]
              rw [List.count_append, htw, hdrop]
            simp [List.count_cons, hrest]

lemma matchAt_core (s1 s2 : List Char) (h1 : s1 ≠ []) (h2 : s2 ≠ [])
    (g1 : ∀ c ∈ s1, notSlash c = true) (g2 : ∀ c ∈ s2, notSlash c = true) :
    matchAt ('/' :: (s1 ++ '/' :: (s2 ++ cssSuffix))) = some (some s1, s2) := by
  simp only [matchAt, if_pos rfl]
  rw [takeWhile_notSlash_append _ _ g1, dropWhile_notSlash_append _ _ g1]
  rw [matchTail_shape s2 h2 g2]
  simp [h1]

lemma count_slash_core (s1 s2 : List Char)
    (g1 : ∀ c ∈ s1, notSlash c = true) (g2 : ∀ c ∈ s2, notSlash c = true) :
    ('/' :: (s1 ++ '/' :: (s2 ++ cssSuffix))).count '/' = 3 := by
  have h1 : cssSuffix.count '/' = 1 := by decide
  simp [List.count_cons, List.count_append,
    count_slash_eq_zero g1, count_slash_eq_zero g2, h1]

lemma execScan_concat (p s1 s2 : List Char) (h1 : s1 ≠ []) (h2 : s2 ≠ [])
    (g1 : ∀ c ∈ s1, notSlash c = true) (g2 : ∀ c ∈ s2, notSlash c = true) :
    execScan (p ++ '/' :: (s1 ++ '/' :: (s2 ++ cssSuffix))) = some (some s1, s2) := by
  induction p with
  | nil =>
      rw [List.nil_append]
      unfold execScan
      rw [matchAt_core s1 s2 h1 h2 g1 g2]
  | cons c p ih =>
      have hnone : matchAt (c :: (p ++ '/' :: (s1 ++ '/' :: (s2 ++ cssSuffix)))) = none := by
        by_cases hc : c = '/'
        · subst hc
          cases hm : matchAt ('/' :: (p ++ '/' :: (s1 ++ '/' :: (s2 ++ cssSuffix)))) with
          | none => rfl
          | some r =>
              exfalso
              have hcnt := count_slash_matchAt hm
              have hcore := count_slash_core s1 s2 g1 g2
              have hsplit : ('/' :: (p ++ '/' :: (s1 ++ '/' :: (s2 ++ cssSuffix)))).count '/'
                  = ('/' :: p).count '/' + ('/' :: (s1 ++ '/' :: (s2 ++ cssSuffix))).count '/' := by
                rw [show ('/' :: (p ++ '/' :: (s1 ++ '/' :: (s2 ++ cssSuffix))))
                    = ('/' :: p) ++ ('/' :: (s1 ++ '/' :: (s2 ++ cssSuffix))) from rfl]
                rw [List.count_append]
              have hge : 1 ≤ ('/' :: p).count '/' := by
                rw [List.count_cons_self]
                omega
              rw [hsplit, hcore] at hcnt
              omega
        · exact matchAt_not_slash hc
      rw [List.cons_append]
      unfold execScan
      rw [hnone]
      exact ih

/-! ## Lemmas about the responder -/

lemma resolveLocale_ne_empty (m1 : Option (List Char)) : resolveLocale m1 ≠ "" := by
  cases m1 with
  | none => simp [resolveLocale]
  | some l =>
      by_cases h : String.mk l = "" <;> simp [resolveLocale, h]

lemma responder_matched (cfg : ConfigState)
    (getCss : String → String → List String → Except JsError CssObj) (req : Req)
    (m1 : Option (List Char)) (m2 : List Char) (u : String)
    (hm : req.method = "GET") (hx : execScan req.url.toList = some (m1, m2))
    (hu : jsOr cfg.ua req.userAgentHeader = some u) (hne : u ≠ "") :
    font_css_responder cfg getCss req
      = dispatchGetCss cfg.compress
          (getCss u (resolveLocale m1) ((splitComma m2).map String.mk)) := by
  unfold font_css_responder
  rw [if_pos hm, hx, hu]
  simp [hne, resolveLocale_ne_empty m1]

/-- C2: a GET request for `/en/Arial,Roboto/fonts.css` matches and the
responder calls `get_css` with `locale = "en"` and
`fonts = ["Arial", "Roboto"]`; a GET request for
`/Arial,Roboto/fonts.css` (no locale segment) matches with the locale
defaulting to the literal string `"default"`. -/
theorem responder_locale_and_fonts_extraction
    (getCss : String → String → List String → Except JsError CssObj) (compress : Bool) :
    font_css_responder ⟨some "UA", compress⟩ getCss
        ⟨"GET", "/en/Arial,Roboto/fonts.css", none⟩
      = dispatchGetCss compress (getCss "UA" "en" ["Arial", "Roboto"]) ∧
    font_css_responder ⟨some "UA", compress⟩ getCss
        ⟨"GET", "/Arial,Roboto/fonts.css", none⟩
      = dispatchGetCss compress (getCss "UA" "default" ["Arial", "Roboto"]) :=
  ⟨rfl, rfl⟩

/-- C8: a request that does not match — a non-GET method (even on a URL
whose path matches the pattern) or a URL the pattern does not match —
falls through to the next handler with no error and no response of the
responder's own. -/
theorem responder_non_match_pass_through (cfg : ConfigState)
    (getCss : String → String → List String → Except JsError CssObj) (req : Req)
    (h : req.method ≠ "GET" ∨ execScan req.url.toList = none) :
    font_css_responder cfg getCss req = RespAction.passThrough ∧
    callsNext (font_css_responder cfg getCss req) = true := by
  have hres : font_css_responder cfg getCss req = RespAction.passThrough := by
    unfold font_css_responder
    rcases h with h | h
    · rw [if_neg h]
    · by_cases hm : req.method = "GET"
      · rw [if_pos hm, h]
      · rw [if_neg hm]
  exact ⟨hres, by rw [hres]; rfl⟩

/-- Witness for C8: a POST request to a matching URL path passes
through. -/
theorem responder_non_match_pass_through_witness :
    font_css_responder ⟨some "UA", false⟩ (fun _ _ _ => Except.ok ⟨"c", "p"⟩)
        ⟨"POST", "/en/A/fonts.css", none⟩ = RespAction.passThrough :=
  (responder_non_match_pass_through _ _ _ (Or.inl (by decide))).1

/-- C10: on a matching GET request, when the configuration has no
user-agent override and the request carries no user-agent header, the
responder passes through to the next handler; the outcome holds for
every `getCss` oracle, so `get_css` is never consulted. -/
theorem responder_no_ua_pass_through (cfg : ConfigState)
    (getCss : String → String → List String → Except JsError CssObj) (req : Req)
    (m : Option (List Char) × List Char)
    (hm : req.method = "GET") (hx : execScan req.url.toList = some m)
    (hcfg : cfg.ua = none) (hhdr : req.userAgentHeader = none) :
    font_css_responder cfg getCss req = RespAction.passThrough := by
  obtain ⟨m1, m2⟩ := m
  unfold font_css_responder
  rw [if_pos hm, hx, hcfg, hhdr]
  rfl

/-- Witness for C10 at a concrete matching request with no user agent
anywhere. -/
theorem responder_no_ua_pass_through_witness :
    font_css_responder ⟨none, false⟩ (fun _ _ _ => Except.ok ⟨"c", "p"⟩)
        ⟨"GET", "/en/A/fonts.css", none⟩ = RespAction.passThrough :=
  responder_no_ua_pass_through _ _ _ (some ['e', 'n'], ['A']) rfl (by decide) rfl rfl

/-- C4: on a matched request (GET, matching URL, truthy user agent), an
`InvalidFontError` from `get_css` makes the responder call the next
handler (no error response), while any other error is re-thrown
unchanged with no recovery. -/
theorem responder_error_dispatch (cfg : ConfigState)
    (getCss : String → String → List String → Except JsError CssObj) (req : Req)
    (m1 : Option (List Char)) (m2 : List Char) (u : String)
    (hm : req.method = "GET") (hx : execScan req.url.toList = some (m1, m2))
    (hu : jsOr cfg.ua req.userAgentHeader = some u) (hne : u ≠ "") :
    (getCss u (resolveLocale m1) ((splitComma m2).map String.mk)
        = Except.error JsError.invalidFont →
      font_css_responder cfg getCss req = RespAction.nextAfterError ∧
      callsNext (font_css_responder cfg getCss req) = true) ∧
    (∀ e, getCss u (resolveLocale m1) ((splitComma m2).map String.mk) = Except.error e →
      e ≠ JsError.invalidFont →
      font_css_responder cfg getCss req = RespAction.raise e) := by
  rw [responder_matched cfg getCss req m1 m2 u hm hx hu hne]
  constructor
  · intro h
    rw [h]
    exact ⟨rfl, rfl⟩
  · intro e h hinv
    rw [h]
    cases e with
    | invalidFont => exact absurd rfl hinv
    | generationError s => rfl
    | ioError s => rfl

/-- Witness for C4: an `InvalidFontError` on a concrete matched request
results in a call to the next handler. -/
theorem responder_error_dispatch_witness :
    font_css_responder ⟨some "UA", false⟩ (fun _ _ _ => Except.error JsError.invalidFont)
        ⟨"GET", "/en/A/fonts.css", none⟩ = RespAction.nextAfterError :=
  ((responder_error_dispatch ⟨some "UA", false⟩ _ _ (some ['e', 'n']) ['A'] "UA"
      rfl (by decide) rfl (by decide)).1 rfl).1

/-- C9: matching is suffix-based, not whole-path.  For every GET
request whose URL ends with `/<seg1>/<seg2>/fonts.css` — `seg1`, `seg2`
nonempty and slash-free — with any leading path segments before it, the
responder treats it as a match with `locale = seg1` and `fonts = seg2`
split on commas (given a truthy user agent, which is needed for the
responder to proceed past the match). -/
theorem responder_suffix_matching (cfg : ConfigState)
    (getCss : String → String → List String → Except JsError CssObj)
    (pre s1 s2 : List Char) (hdr : Option String) (u : String)
    (h1 : s1 ≠ []) (h2 : s2 ≠ [])
    (g1 : ∀ c ∈ s1, notSlash c = true) (g2 : ∀ c ∈ s2, notSlash c = true)
    (hu : jsOr cfg.ua hdr = some u) (hne : u ≠ "") :
    font_css_responder cfg getCss
        ⟨"GET", String.mk (pre ++ '/' :: (s1 ++ '/' :: (s2 ++ cssSuffix))), hdr⟩
      = dispatchGetCss cfg.compress
          (getCss u (String.mk s1) ((splitComma s2).map String.mk)) := by
  have hx : execScan (String.mk (pre ++ '/' :: (s1 ++ '/' :: (s2 ++ cssSuffix)))).toList
      = some (some s1, s2) := execScan_concat pre s1 s2 h1 h2 g1 g2
  rw [responder_matched cfg getCss _ (some s1) s2 u rfl hx hu hne]
  have hs : String.mk s1 ≠ "" := fun hc => h1 (congrArg String.data hc)
  have hloc : resolveLocale (some s1) = String.mk s1 := by
    simp [resolveLocale, hs]
  rw [hloc]

/-- Witness for C9: `/extra/en/Arial/fonts.css` — with a leading extra
segment — matches with locale `"en"` and fonts `["Arial"]`. -/
theorem responder_suffix_matching_witness :
    font_css_responder ⟨some "UA", false⟩ (fun _ _ _ => Except.ok ⟨"c", "p"⟩)
        ⟨"GET", String.mk ("/extra".toList
            ++ '/' :: (['e', 'n'] ++ '/' :: (['A', 'r', 'i', 'a', 'l'] ++ cssSuffix))), none⟩
      = dispatchGetCss false (Except.ok ⟨"c", "p"⟩) :=
  responder_suffix_matching ⟨some "UA", false⟩ _ "/extra".toList ['e', 'n']
    ['A', 'r', 'i', 'a', 'l'] none "UA" (by decide) (by decide) (by decide) (by decide)
    rfl (by decide)
